import Mathlib

/-!
Shallow embedding of the backtesting broker (`src/backtrader/broker.py`,
class `BrokerBack`) together with the collaborator components the spec
describes in §4.1–§4.3 (`CommissionScheme`/`CommissionInfo`, `Position`,
`Order`), whose source files are not part of the excerpt and are therefore
modelled from the spec.  Prices are rationals, sizes are integers,
timestamps are (date, time) pairs of integers.
-/

-- Rational arithmetic is irreducible by default; the concrete evaluations
-- below go through `decide`, which needs it to reduce.
unseal Rat.add Rat.sub Rat.mul Rat.inv

namespace Backtrader

/-- A bar timestamp: the date part and the time-of-day part, as produced by
the feed's `datetime` line (`.date()` and `.time()` in the source). -/
structure PyDateTime where
  date : Int
  time : Int
deriving DecidableEq

/-- Lexicographic order on timestamps: date first, then time-of-day. -/
def PyDateTime.ltDT (a b : PyDateTime) : Bool :=
  a.date < b.date || (a.date = b.date && a.time < b.time)

/-- The per-instrument, per-bar view the broker reads in `BrokerBack.next`:
`open/high/low/close` at offset 0, `close` and the timestamp at offsets 0 and
-1.  Field names follow the local variables of `BrokerBack.next`. -/
structure Bar where
  popen : ℚ
  phigh : ℚ
  plow : ℚ
  pclose : ℚ
  pclose1 : ℚ
  dt0 : PyDateTime
  dt1 : PyDateTime
deriving DecidableEq

/-- Modelled from the spec: `CommissionScheme` (§4.1, source file
`comminfo.py` not in the excerpt).  Commission rate, multiplier and an
optional margin requirement; a scheme with a margin denotes a
margined/futures-like instrument, a scheme without one a cash instrument. -/
structure CommissionInfo where
  commission : ℚ
  margin : Option ℚ
  mult : ℚ
deriving DecidableEq

/-- Modelled from the spec: `operationCost(size, price)` (§4.1) — cash
instruments: `price * |size| * multiplier`; margined: `margin * |size|`. -/
def CommissionInfo.getoperationcost (ci : CommissionInfo) (size : Int) (price : ℚ) : ℚ :=
  match ci.margin with
  | none => price * |(size : ℚ)| * ci.mult
  | some m => m * |(size : ℚ)|

/-- Modelled from the spec: `commission(size, price)` (§4.1) — cash
instruments: `price * |size| * multiplier * rate`; margined: `|size| * rate`
(a per-contract fee with no price dependency). -/
def CommissionInfo.getcomm_pricesize (ci : CommissionInfo) (size : Int) (price : ℚ) : ℚ :=
  match ci.margin with
  | none => price * |(size : ℚ)| * ci.mult * ci.commission
  | some _ => |(size : ℚ)| * ci.commission

/-- Modelled from the spec: `markToMarket` (§4.1) — 0 for cash instruments,
`(closeNow - closePrev) * size * multiplier` for margined ones.  Argument
order follows the call sites in `BrokerBack.next` and `_execute`
(`cashadjust(size, fromPrice, toPrice)`, per §4.4 step 1 where the sweep is
`markToMarket(position.size, closeNow, closePrev)` for the call
`cashadjust(pos.size, close[-1], close[0])`). -/
def CommissionInfo.cashadjust (ci : CommissionInfo) (size : Int) (price newprice : ℚ) : ℚ :=
  match ci.margin with
  | none => 0
  | some _ => (newprice - price) * (size : ℚ) * ci.mult

/-- Modelled from the spec: `Position` (§3/§4.2, source file `datapos.py`
not in the excerpt): signed size and volume-weighted average entry price. -/
structure Position where
  size : Int
  price : ℚ
deriving DecidableEq

/-- Modelled from the spec: `positionValue(position, closeNow)` (§4.1) —
cash instruments: `position.size * closeNow * multiplier`; margined:
`margin * position.size`. -/
def CommissionInfo.getvalue (ci : CommissionInfo) (pos : Position) (price : ℚ) : ℚ :=
  match ci.margin with
  | none => (pos.size : ℚ) * price * ci.mult
  | some m => m * (pos.size : ℚ)

/-- Modelled from the spec: `Position.update(deltaSize, price)` (§4.2).
Returns the updated position together with `(openedQty, closedQty)`.
Same sign (or flat): everything opens, the average price is the
size-weighted blend.  Opposite sign: up to `min(|cur|, |delta|)` closes
(`closedQty` signed like `deltaSize`), the remainder opens at the fill
price; the price of a reduced position is unchanged, a fully closed
position's price is reset. -/
def Position.update (p : Position) (size : Int) (price : ℚ) :
    Position × Int × Int :=
  if p.size = 0 ∨ (0 < p.size ∧ 0 < size) ∨ (p.size < 0 ∧ size < 0) then
    let newsize := p.size + size
    let newprice := if newsize = 0 then 0 else
      (p.price * (p.size : ℚ) + price * (size : ℚ)) / (newsize : ℚ)
    (⟨newsize, newprice⟩, size, 0)
  else
    let closedQty : Int := size.sign * (min p.size.natAbs size.natAbs : ℕ)
    let openedQty : Int := size - closedQty
    let newsize := p.size + size
    let newprice := if openedQty ≠ 0 then price else if newsize = 0 then 0 else p.price
    (⟨newsize, newprice⟩, openedQty, closedQty)

/-- Order execution types (`Order.Market`, … in `order.py`). -/
inductive ExecType
  | Market
  | Close
  | Limit
  | Stop
  | StopLimit
deriving DecidableEq

/-- Order statuses (§4.3).  The `Partial` status of the taxonomy is omitted:
per the spec it is never reached because fills are always total. -/
inductive Status
  | Created
  | Submitted
  | Accepted
  | Completed
  | Canceled
  | Expired
  | Margin
  | Rejected
deriving DecidableEq

/-- Modelled from the spec: `Order` (§3/§4.3, source file `order.py` not in
the excerpt), restricted to the fields the broker reads.  `oid` stands for
the object identity used by `pending.remove(order)`; `price` is
`order.created.price` (the trigger/reference price `pcreated`), `pricelimit`
is `order.created.pricelimit` (`plimit`), `remsize` is
`order.executed.remsize`. -/
structure Order where
  oid : Nat
  isbuy : Bool
  data : Nat
  exectype : ExecType
  price : ℚ
  pricelimit : ℚ
  valid : Option PyDateTime
  triggered : Bool
  status : Status
  remsize : Int
  execprice : ℚ
  execdt : PyDateTime
deriving DecidableEq

/-- Modelled from the spec: `alive()` (§4.3) — true while the status is
Accepted (any trigger state) and the remaining size is nonzero. -/
def Order.alive (o : Order) : Bool :=
  o.status = Status.Accepted && o.remsize ≠ 0

/-- Modelled from the spec: `accept()` (§4.3) — always succeeds. -/
def Order.accept (o : Order) : Order :=
  { o with status := Status.Accepted }

/-- Modelled from the spec: `cancel()` (§4.3) — Accepted → Canceled. -/
def Order.cancel (o : Order) : Order :=
  { o with status := Status.Canceled }

/-- Modelled from the spec: `expire(currentTime)` (§4.3) — Accepted →
Expired when `validUntil` is set and the current time exceeds it, otherwise
a no-op.  Returns the updated order and whether the transition fired. -/
def Order.expire (o : Order) (now : PyDateTime) : Order × Bool :=
  match o.valid with
  | none => (o, false)
  | some v =>
    if o.status = Status.Accepted && PyDateTime.ltDT v now then
      ({ o with status := Status.Expired }, true)
    else
      (o, false)

/-- Modelled from the spec: `execute(...)` (§4.3) — Accepted → Completed;
records the fill and zeroes the remaining size (fills are total). -/
def Order.execute (o : Order) (dt : PyDateTime) (size : Int) (price : ℚ) : Order :=
  { o with status := Status.Completed, remsize := o.remsize - size,
           execprice := price, execdt := dt }

/-- The broker state (`BrokerBack.__init__`): current cash, starting cash,
the append-only order history, the pending deque (head at the front of the
list), the lazily-populated position map (`collections.defaultdict(Position)`:
an association list in insertion order), the per-name commission-scheme
overrides plus the default entry (`comminfo = dict({None: commission})`),
and the notification FIFO. -/
structure BrokerBack where
  cash : ℚ
  startingcash : ℚ
  orders : List Order
  pending : List Order
  positions : List (Nat × Position)
  comminfo : List (Nat × CommissionInfo)
  defaultcomm : CommissionInfo
  notifs : List Order
deriving DecidableEq

/-- Association-list lookup for the position map. -/
def lookupPos : List (Nat × Position) → Nat → Option Position
  | [], _ => none
  | (k, v) :: rest, d => if k = d then some v else lookupPos rest d

/-- Association-list update: replaces the value at the first occurrence of
the key (Python dicts keep each key once, at its original position). -/
def updatePos : List (Nat × Position) → Nat → Position → List (Nat × Position)
  | [], _, _ => []
  | (k, v) :: rest, d, p => if k = d then (k, p) :: rest else (k, v) :: updatePos rest d p

/-- Association-list lookup for the commission-scheme overrides. -/
def lookupComm : List (Nat × CommissionInfo) → Nat → Option CommissionInfo
  | [], _ => none
  | (k, v) :: rest, d => if k = d then some v else lookupComm rest d

/-- `BrokerBack.getcommissioninfo`: the per-name override if registered,
otherwise the default scheme (`comminfo[None]`). -/
def BrokerBack.getcommissioninfo (s : BrokerBack) (data : Nat) : CommissionInfo :=
  match lookupComm s.comminfo data with
  | some ci => ci
  | none => s.defaultcomm

/-- The `defaultdict` access `self.positions[data]`: returns the stored
position if present; otherwise returns a fresh empty position and, as a side
effect, inserts it at the end of the map (insertion order). -/
def BrokerBack.getposdd (s : BrokerBack) (d : Nat) : Position × BrokerBack :=
  match lookupPos s.positions d with
  | some p => (p, s)
  | none => (⟨0, 0⟩, { s with positions := s.positions ++ [(d, ⟨0, 0⟩)] })

/-- `BrokerBack.getposition(data)`: the bare `defaultdict` access. -/
def BrokerBack.getposition (s : BrokerBack) (d : Nat) : Position × BrokerBack :=
  s.getposdd d

/-- One step of the `getvalue` accumulation loop: look the scheme up, take
the `defaultdict` entry for the instrument (inserting it when absent) and
add `comminfo.getvalue(position, data.close[0])`. -/
def getvalueStep (feed : Nat → Bar) (acc : ℚ × BrokerBack) (d : Nat) : ℚ × BrokerBack :=
  let ci := acc.2.getcommissioninfo d
  let pr := acc.2.getposdd d
  (acc.1 + ci.getvalue pr.1 (feed d).pclose, pr.2)

/-- `BrokerBack.getvalue(datas=None)`: iterates `datas or positions.keys()`
(a falsy argument — `None` or the empty list — falls back to the keys of the
position map), sums `comminfo.getvalue(position, close[0])` and returns
`cash + pos_value`.  The `defaultdict` accesses inside the loop may insert
entries, so the updated broker state is returned alongside the value. -/
def BrokerBack.getvalue (s : BrokerBack) (feed : Nat → Bar) (datas : Option (List Nat)) :
    ℚ × BrokerBack :=
  let ds := match datas with
    | none => s.positions.map Prod.fst
    | some [] => s.positions.map Prod.fst
    | some l => l
  let r := ds.foldl (getvalueStep feed) (0, s)
  (r.2.cash + r.1, r.2)

/-- `BrokerBack.submit(order)`: accept unconditionally (no margin check —
a documented limitation), append to the history and to the pending deque. -/
def BrokerBack.submit (s : BrokerBack) (o : Order) : BrokerBack :=
  let o' := o.accept
  { s with orders := s.orders ++ [o'], pending := s.pending ++ [o'] }

/-- `deque.remove(order)` on the pending queue: removes the first element
with the given object identity, returning it and the remaining queue, or
`none` when the order is not present (the `ValueError` path). -/
def removeFirstById : List Order → Nat → Option (Order × List Order)
  | [], _ => none
  | o :: rest, i =>
    if o.oid = i then some (o, rest)
    else match removeFirstById rest i with
      | none => none
      | some (f, rest') => some (f, o :: rest')

/-- `BrokerBack.cancel(order)`: try to remove the order from the pending
queue; if absent return `false` without touching anything (the caught
`ValueError`); otherwise mark it Canceled, notify, and return `true`. -/
def BrokerBack.cancel (s : BrokerBack) (i : Nat) : BrokerBack × Bool :=
  match removeFirstById s.pending i with
  | none => (s, false)
  | some (o, rest) =>
    let o' := o.cancel
    ({ s with pending := rest, notifs := s.notifs ++ [o'] }, true)

/-- `BrokerBack._execute(order, dt, price)`: update the position with the
order's full remaining size, then apply the cash-flow choreography — for the
closed quantity add `getoperationcost`, subtract `getcomm_pricesize`,
subtract `cashadjust(closed, price, close[0])`; for the opened quantity
subtract `getoperationcost`, subtract `getcomm_pricesize`, add
`cashadjust(opened, price, close[0])` — then complete and notify the order.
Returns the new state and the executed order. -/
def BrokerBack.execOrder (s : BrokerBack) (feed : Nat → Bar) (o : Order)
    (dt : PyDateTime) (price : ℚ) : BrokerBack × Order :=
  let size := o.remsize
  let pr := s.getposdd o.data
  let s1 := pr.2
  let u := pr.1.update size price
  let opened := u.2.1
  let closed := u.2.2
  let s2 := { s1 with positions := updatePos s1.positions o.data u.1 }
  let ci := s2.getcommissioninfo o.data
  let c0 := (feed o.data).pclose
  let cash1 :=
    if closed ≠ 0 then
      s2.cash + ci.getoperationcost closed price - ci.getcomm_pricesize closed price
        - ci.cashadjust closed price c0
    else s2.cash
  let cash2 :=
    if opened ≠ 0 then
      cash1 - ci.getoperationcost opened price - ci.getcomm_pricesize opened price
        + ci.cashadjust opened price c0
    else cash1
  let o' := o.execute dt size price
  ({ s2 with cash := cash2, notifs := s2.notifs ++ [o'] }, o')

/-- The source's sell-side StopLimit gap branch compares `plimit` with the
bare name `open` — the Python builtin function, a slip for the bar's opening
price `popen` (flagged in the spec, §9).  Under CPython 2's cross-type
ordering a number compares less than any non-numeric object, so the
comparison is constantly true (under Python 3 it would raise `TypeError`). -/
def plimitLeBuiltinOpen (_plimit : ℚ) : Bool :=
  true

/-- The per-order fill evaluation of `BrokerBack.next` (the
`if order.exectype == ...` chain): given the order and its instrument's bar,
returns the order (with any `triggered` latch set) and, when it fills, the
execution timestamp and price. -/
def checkexec (o : Order) (b : Bar) : Order × Option (PyDateTime × ℚ) :=
  let plow := b.plow
  let phigh := b.phigh
  let popen := b.popen
  let pclose := b.pclose
  let pclose1 := b.pclose1
  let pcreated := o.price
  let plimit := o.pricelimit
  match o.exectype with
  | ExecType.Market => (o, some (b.dt0, popen))
  | ExecType.Close =>
    if b.dt0.time ≠ b.dt1.time then (o, some (b.dt1, pclose1))
    else if b.dt0.date ≠ b.dt1.date then (o, some (b.dt1, pclose1))
    else (o, none)
  | ExecType.Limit =>
    if o.isbuy then
      if plimit ≥ popen then (o, some (b.dt0, popen))
      else if plimit ≥ plow then (o, some (b.dt0, plimit))
      else (o, none)
    else
      if plimit ≤ popen then (o, some (b.dt0, popen))
      else if plimit ≤ phigh then (o, some (b.dt0, plimit))
      else (o, none)
  | ExecType.Stop =>
    if o.isbuy then
      if popen ≥ pcreated then (o, some (b.dt0, popen))
      else if phigh ≥ pcreated then (o, some (b.dt0, pcreated))
      else (o, none)
    else
      if popen ≤ pcreated then (o, some (b.dt0, popen))
      else if plow ≤ pcreated then (o, some (b.dt0, pcreated))
      else (o, none)
  | ExecType.StopLimit =>
    if o.triggered then
      -- already triggered: evaluated with the Limit rule
      if o.isbuy then
        if plimit ≥ popen then (o, some (b.dt0, popen))
        else if plimit ≥ plow then (o, some (b.dt0, plimit))
        else (o, none)
      else
        if plimit ≤ popen then (o, some (b.dt0, popen))
        else if plimit ≤ phigh then (o, some (b.dt0, plimit))
        else (o, none)
    else if o.isbuy then
      if popen ≥ pcreated then
        let o' := { o with triggered := true }
        if plimit ≥ popen then (o', some (b.dt0, popen))
        else if plimit ≥ plow then (o', some (b.dt0, plimit))
        else (o', none)
      else if phigh ≥ pcreated then
        let o' := { o with triggered := true }
        if popen > pclose then
          if plimit ≥ pcreated then (o', some (b.dt0, pcreated))
          else if plimit ≥ pclose then (o', some (b.dt0, plimit))
          else (o', none)
        else
          if plimit ≥ pcreated then (o', some (b.dt0, pcreated))
          else (o', none)
      else (o, none)
    else
      if popen ≤ pcreated then
        let o' := { o with triggered := true }
        -- source line 253: `if plimit <= open` — the Python builtin, see
        -- `plimitLeBuiltinOpen`
        if plimitLeBuiltinOpen plimit then (o', some (b.dt0, popen))
        else if plimit ≤ phigh then (o', some (b.dt0, plimit))
        else (o', none)
      else if plow ≤ pcreated then
        let o' := { o with triggered := true }
        if popen ≤ pclose then
          if plimit ≤ pcreated then (o', some (b.dt0, pcreated))
          else if plimit ≤ pclose then (o', some (b.dt0, plimit))
          else (o', none)
        else
          if plimit ≤ pcreated then (o', some (b.dt0, pcreated))
          else (o', none)
      else (o, none)

/-- The body of one iteration of the queue pass, after the head order has
been popped: expire check first (an expired order is only notified), then
the fill evaluation, then `_execute` on a fill.  Returns the updated broker
state and the order as it stands after the iteration. -/
def BrokerBack.processOrder (s : BrokerBack) (feed : Nat → Bar) (o : Order) :
    BrokerBack × Order :=
  let b := feed o.data
  let e := o.expire b.dt0
  if e.2 then
    ({ s with notifs := s.notifs ++ [e.1] }, e.1)
  else
    let r := checkexec e.1 b
    match r.2 with
    | some dp => s.execOrder feed r.1 dp.1 dp.2
    | none => (s, r.1)

/-- The queue pass exactly as the source runs it: `n` iterations over a
single deque, each popping the head, processing it, and re-appending it at
the tail when it is still alive (`for i in range(len(self.pending))`). -/
def BrokerBack.queueLoop (feed : Nat → Bar) : Nat → BrokerBack → BrokerBack
  | 0, s => s
  | Nat.succ n, s =>
    match s.pending with
    | [] => s
    | o :: rest =>
      let r := BrokerBack.processOrder { s with pending := rest } feed o
      let s' := if r.2.alive then { r.1 with pending := r.1.pending ++ [r.2] } else r.1
      BrokerBack.queueLoop feed n s'

/-- The start-of-bar mark-to-market sweep (`BrokerBack.next`, first loop):
for every entry of the position map add
`cashadjust(pos.size, close[-1], close[0])` to cash. -/
def BrokerBack.sweep (s : BrokerBack) (feed : Nat → Bar) : BrokerBack :=
  let c' := s.positions.foldl
    (fun c dp => c + (s.getcommissioninfo dp.1).cashadjust dp.2.size
      (feed dp.1).pclose1 (feed dp.1).pclose) s.cash
  { s with cash := c' }

/-- `BrokerBack.next()`: the per-bar step — the mark-to-market sweep, then
the queue pass over a snapshot of the pending-queue length. -/
def BrokerBack.next (s : BrokerBack) (feed : Nat → Bar) : BrokerBack :=
  let s1 := s.sweep feed
  BrokerBack.queueLoop feed s1.pending.length s1

/-- The queue pass as §4.4 phrases it: process the snapshot list of pending
orders one by one, each exactly once, collecting the survivors at the tail
of the pending queue; used to state the equivalence with the deque loop
`BrokerBack.queueLoop`. -/
def BrokerBack.runPass (feed : Nat → Bar) (s : BrokerBack) : List Order → BrokerBack
  | [] => s
  | o :: rest =>
    let r := BrokerBack.processOrder s feed o
    let s' := if r.2.alive then { r.1 with pending := r.1.pending ++ [r.2] } else r.1
    BrokerBack.runPass feed s' rest

/-! ## Spec-side fill rules

The following definitions follow the words of the spec/claims (not the
source); the theorems below compare them with the embedded source code. -/

/-- The Limit fill rule as the spec states it (§4.4 *Limit*): Buy fills at
`open` if `limit ≥ open`, else at `limit` if `limit ≥ low`, else stays
pending; Sell mirrors with `limit ≤ open` and `limit ≤ high`. -/
def specLimitFill (isbuy : Bool) (plimit popen plow phigh : ℚ) : Option ℚ :=
  if isbuy then
    if plimit ≥ popen then some popen
    else if plimit ≥ plow then some plimit
    else none
  else
    if plimit ≤ popen then some popen
    else if plimit ≤ phigh then some plimit
    else none

/-- The Stop fill rule as the spec states it (§4.4 *Stop*): Buy fills at
`open` if `open ≥ trigger`, else at `trigger` if `high ≥ trigger`, else
stays pending; Sell mirrors with `open ≤ trigger` and `low ≤ trigger`. -/
def specStopFill (isbuy : Bool) (pcreated popen plow phigh : ℚ) : Option ℚ :=
  if isbuy then
    if popen ≥ pcreated then some popen
    else if phigh ≥ pcreated then some pcreated
    else none
  else
    if popen ≤ pcreated then some popen
    else if plow ≤ pcreated then some pcreated
    else none

/-- Claim C3's sell-side intrabar StopLimit rule, stated from the claim's
words: when `open ≥ close` fill at `trigger` only if `limit ≤ trigger` (no
secondary close-relative branch); when `open < close` fill at `trigger` if
`limit ≤ trigger`, else at `limit` if `limit ≤ close`. -/
def claimSellStopLimitIntrabar (popen pclose pcreated plimit : ℚ) : Option ℚ :=
  if popen ≥ pclose then
    if plimit ≤ pcreated then some pcreated else none
  else
    if plimit ≤ pcreated then some pcreated
    else if plimit ≤ pclose then some plimit
    else none

/-- The sell-side intrabar StopLimit rule the source actually implements:
the bar with `open = close` takes the two-branch rule (the source guards it
with `open <= close`, not `open < close`). -/
def amendedSellStopLimitIntrabar (popen pclose pcreated plimit : ℚ) : Option ℚ :=
  if popen ≤ pclose then
    if plimit ≤ pcreated then some pcreated
    else if plimit ≤ pclose then some plimit
    else none
  else
    if plimit ≤ pcreated then some pcreated else none

/-! ## Concrete witness inputs -/

/-- A pending Close sell order (witness input). -/
def ordCW : Order :=
  ⟨11, false, 0, ExecType.Close, 0, 0, none, false, Status.Accepted, -1, 0, ⟨0, 0⟩⟩

/-- A daily bar pair: equal times, different dates (witness input). -/
def barCW : Bar :=
  ⟨100, 101, 99, 100, 98, ⟨2, 0⟩, ⟨1, 0⟩⟩

/-- Scenario B's limit buy order: limit price 95 (witness input). -/
def ordLW : Order :=
  ⟨12, true, 0, ExecType.Limit, 0, 95, none, false, Status.Accepted, 1, 0, ⟨0, 0⟩⟩

/-- Scenario B's bar: open 100, low 94 (witness input). -/
def barLW : Bar :=
  ⟨100, 102, 94, 99, 98, ⟨1, 0⟩, ⟨0, 0⟩⟩

/-- Scenario D's stop buy order: trigger price 110 (witness input). -/
def ordSW : Order :=
  ⟨13, true, 0, ExecType.Stop, 110, 0, none, false, Status.Accepted, 1, 0, ⟨0, 0⟩⟩

/-- Scenario D's bar: open 108, high 112 (witness input). -/
def barSW : Bar :=
  ⟨108, 112, 107, 111, 106, ⟨1, 0⟩, ⟨0, 0⟩⟩

/-! ## Claims C4, C5, C6: Close, Limit and Stop fill rules -/

/-- Claim C4: a pending Close order executes at the previous bar's close
price (with the previous bar's timestamp) exactly when the current bar's
timestamp differs from the previous bar's in time-of-day or — times being
equal — in date; otherwise the evaluation leaves it unexecuted (it remains
pending). -/
theorem close_fires_iff_bar_boundary (o : Order) (b : Bar)
    (h : o.exectype = ExecType.Close) :
    checkexec o b =
      (o, if b.dt0.time ≠ b.dt1.time ∨ b.dt0.date ≠ b.dt1.date
        then some (b.dt1, b.pclose1) else none) := by
  unfold checkexec
  rw [h]
  by_cases ht : b.dt0.time = b.dt1.time <;> by_cases hd : b.dt0.date = b.dt1.date <;>
    simp [ht, hd]

/-- A concrete instance of `close_fires_iff_bar_boundary`: a daily feed
(equal times, different dates) fires; the boundary condition holds. -/
theorem close_fires_iff_bar_boundary_witness :
    ordCW.exectype = ExecType.Close ∧
    checkexec ordCW barCW =
      (ordCW, if barCW.dt0.time ≠ barCW.dt1.time ∨ barCW.dt0.date ≠ barCW.dt1.date
        then some (barCW.dt1, barCW.pclose1) else none) :=
  ⟨rfl, close_fires_iff_bar_boundary ordCW barCW rfl⟩

/-- Claim C5: a Limit order — or a StopLimit that has already triggered —
is filled exactly as the spec's Limit rule `specLimitFill` prescribes, with
the current bar's timestamp, and the order itself is returned unchanged. -/
theorem limit_rule_agrees (o : Order) (b : Bar)
    (h : o.exectype = ExecType.Limit ∨
      (o.exectype = ExecType.StopLimit ∧ o.triggered = true)) :
    checkexec o b =
      (o, (specLimitFill o.isbuy o.pricelimit b.popen b.plow b.phigh).map
        (fun pr => (b.dt0, pr))) := by
  rcases h with h | ⟨h, ht⟩
  · unfold checkexec specLimitFill
    rw [h]
    cases hb : o.isbuy <;> simp only [Bool.false_eq_true, if_false, if_true] <;>
      split_ifs <;> rfl
  · unfold checkexec specLimitFill
    rw [h]
    simp only [ht, if_true]
    cases hb : o.isbuy <;> simp only [Bool.false_eq_true, if_false, if_true] <;>
      split_ifs <;> rfl

/-- A concrete instance of `limit_rule_agrees`: the spec's Scenario B
(limit buy 95, bar open 100, low 94 — fills at the limit price 95). -/
theorem limit_rule_agrees_witness :
    (ordLW.exectype = ExecType.Limit ∨
      (ordLW.exectype = ExecType.StopLimit ∧ ordLW.triggered = true)) ∧
    checkexec ordLW barLW =
      (ordLW, (specLimitFill ordLW.isbuy ordLW.pricelimit barLW.popen barLW.plow
        barLW.phigh).map (fun pr => (barLW.dt0, pr))) :=
  ⟨Or.inl rfl, limit_rule_agrees ordLW barLW (Or.inl rfl)⟩

/-- Claim C6: a Stop order is filled exactly as the spec's Stop rule
`specStopFill` prescribes — buy gaps through at `open` when
`open ≥ trigger`, else fills at the trigger on an intrabar touch
(`high ≥ trigger`); the sell side mirrors — and the order itself is
returned unchanged. -/
theorem stop_rule_agrees (o : Order) (b : Bar)
    (h : o.exectype = ExecType.Stop) :
    checkexec o b =
      (o, (specStopFill o.isbuy o.price b.popen b.plow b.phigh).map
        (fun pr => (b.dt0, pr))) := by
  unfold checkexec specStopFill
  rw [h]
  cases hb : o.isbuy <;> simp only [Bool.false_eq_true, if_false, if_true] <;>
    split_ifs <;> rfl

/-- A concrete instance of `stop_rule_agrees`: the spec's Scenario D
(stop buy, trigger 110, bar open 108, high 112 — fills at 110). -/
theorem stop_rule_agrees_witness :
    ordSW.exectype = ExecType.Stop ∧
    checkexec ordSW barSW =
      (ordSW, (specStopFill ordSW.isbuy ordSW.price barSW.popen barSW.plow
        barSW.phigh).map (fun pr => (barSW.dt0, pr))) :=
  ⟨rfl, stop_rule_agrees ordSW barSW rfl⟩

/-! ## Claim C2: the sell-side StopLimit gap branch -/

/-- A sell StopLimit order, trigger 100, limit 105 (failing input for C2). -/
def ordGapBug : Order :=
  ⟨21, false, 0, ExecType.StopLimit, 100, 105, none, false, Status.Accepted, -1, 0, ⟨0, 0⟩⟩

/-- A bar gapping down through the trigger: open 95 ≤ trigger 100, high 110
(failing input for C2). -/
def barGapBug : Bar :=
  ⟨95, 110, 90, 100, 99, ⟨1, 0⟩, ⟨0, 0⟩⟩

/-- Claim C2: on the failing input the source marks the order triggered but
fills it at the opening price 95 — its gap sub-rule compares the limit with
the Python builtin `open` instead of the opening price, and that comparison
is constantly true — whereas the claimed mirror rule (the sell Limit
sub-rule against the real opening price) fills at the limit price 105,
since 105 is not ≤ open 95 but is ≤ high 110. -/
theorem sell_stoplimit_gap_builtin_open :
    checkexec ordGapBug barGapBug =
      ({ ordGapBug with triggered := true }, some (barGapBug.dt0, 95)) ∧
    specLimitFill false ordGapBug.pricelimit barGapBug.popen barGapBug.plow
      barGapBug.phigh = some 105 ∧
    ((95 : ℚ) ≠ 105) := by
  refine ⟨?_, ?_, ?_⟩ <;> decide

/-! ## Claim C3: the sell-side StopLimit intrabar branch at `open = close` -/

/-- A sell StopLimit order, trigger 90, limit 95 (counterexample input). -/
def ordIntraEq : Order :=
  ⟨22, false, 0, ExecType.StopLimit, 90, 95, none, false, Status.Accepted, -1, 0, ⟨0, 0⟩⟩

/-- A doji bar: open = close = 100, low 89 penetrating the trigger 90
without a gap (counterexample input). -/
def barIntraEq : Bar :=
  ⟨100, 101, 89, 100, 99, ⟨1, 0⟩, ⟨0, 0⟩⟩

/-- Claim C3 counterexample: on a bar with `open = close` the claim's
single-branch rule leaves the order pending (its limit 95 is not ≤ the
trigger 90), but the source takes the two-branch rule (`open <= close`) and
fills at the limit price 95 — so the sell side does not mirror the buy side
at equality. -/
theorem sell_intrabar_eq_counterexample :
    checkexec ordIntraEq barIntraEq =
      ({ ordIntraEq with triggered := true }, some (barIntraEq.dt0, 95)) ∧
    barIntraEq.popen ≥ barIntraEq.pclose ∧
    claimSellStopLimitIntrabar barIntraEq.popen barIntraEq.pclose
      ordIntraEq.price ordIntraEq.pricelimit = none := by
  refine ⟨?_, ?_, ?_⟩ <;> decide

/-- Claim C3 (amended): for a sell StopLimit on an intrabar penetration
(`open > trigger`, `low ≤ trigger`) the order is marked triggered and fills
per `amendedSellStopLimitIntrabar`: the two-branch rule applies when
`open ≤ close` and the single-branch rule when `open > close` — so at
`open = close` the sell side takes the two-branch rule, unlike the buy
side, which takes the single-branch rule at equality. -/
theorem sell_intrabar_amended (o : Order) (b : Bar)
    (h1 : o.exectype = ExecType.StopLimit) (h2 : o.triggered = false)
    (h3 : o.isbuy = false) (h4 : ¬ b.popen ≤ o.price) (h5 : b.plow ≤ o.price) :
    checkexec o b =
      ({ o with triggered := true },
        (amendedSellStopLimitIntrabar b.popen b.pclose o.price o.pricelimit).map
          (fun pr => (b.dt0, pr))) := by
  unfold checkexec amendedSellStopLimitIntrabar
  rw [h1]
  simp only [h2, h3, Bool.false_eq_true, if_false, if_neg h4, if_pos h5]
  split_ifs <;> rfl

/-- A concrete instance of `sell_intrabar_amended` at the `open = close`
boundary input. -/
theorem sell_intrabar_amended_witness :
    ordIntraEq.exectype = ExecType.StopLimit ∧ ordIntraEq.triggered = false ∧
    ordIntraEq.isbuy = false ∧ ¬ barIntraEq.popen ≤ ordIntraEq.price ∧
    barIntraEq.plow ≤ ordIntraEq.price ∧
    checkexec ordIntraEq barIntraEq =
      ({ ordIntraEq with triggered := true },
        (amendedSellStopLimitIntrabar barIntraEq.popen barIntraEq.pclose
          ordIntraEq.price ordIntraEq.pricelimit).map (fun pr => (barIntraEq.dt0, pr))) :=
  ⟨rfl, rfl, rfl, by decide, by decide,
    sell_intrabar_amended ordIntraEq barIntraEq rfl rfl rfl (by decide) (by decide)⟩

/-! ## Claim C1: the execution cash-flow choreography and the
mark-to-market once-per-bar invariant -/

/-- A futures-like commission scheme: no commission, margin 100 per
contract, multiplier 1 (failing input for C1). -/
def ciFut : CommissionInfo :=
  ⟨0, some 100, 1⟩

/-- A market sell of 4 contracts (failing input for C1). -/
def ordMktSell : Order :=
  ⟨31, false, 0, ExecType.Market, 0, 0, none, false, Status.Accepted, -4, 0, ⟨0, 0⟩⟩

/-- The bar on which the sell executes: opens (and fills) at 50 — the
previous close — and closes at 60 (failing input for C1). -/
def feedMtm : Nat → Bar :=
  fun _ => ⟨50, 60, 50, 60, 50, ⟨1, 0⟩, ⟨0, 0⟩⟩

/-- The broker before the bar: cash 10000, long 10 contracts of instrument
0, the market sell pending (failing input for C1). -/
def brokerMtm : BrokerBack :=
  ⟨10000, 10000, [], [ordMktSell], [(0, ⟨10, 40⟩)], [], ciFut, []⟩

/-- Claim C1: the per-bar cash movement follows the source's choreography
literally — the sweep credits all 10 held contracts with
`cashadjust(10, 50, 60) = 100`, the closed quantity releases
`getoperationcost(-4, 50) = 400` of margin, pays zero commission, and the
execution then SUBTRACTS `cashadjust(-4, 50, 60) = -40` (i.e. adds 40) —
but the resulting total (10540) differs from what exactly one
mark-to-market adjustment per contract per bar held would give: 100 per
continuing contract (6 of them, close 50 → 60) and 0 per contract closed at
the fill price 50 = the previous close (4 of them), i.e. 10460.  The closed
contracts receive the sweep AND a same-directional correction instead of
having the sweep undone, so the claimed invariant fails on the code. -/
theorem execute_mtm_not_once_per_bar :
    (brokerMtm.next feedMtm).cash =
      brokerMtm.cash + ciFut.cashadjust 10 50 60
        + ciFut.getoperationcost (-4) 50 - ciFut.getcomm_pricesize (-4) 50
        - ciFut.cashadjust (-4) 50 60 ∧
    (brokerMtm.next feedMtm).cash ≠
      brokerMtm.cash
        + ciFut.getoperationcost (-4) 50 - ciFut.getcomm_pricesize (-4) 50
        + 6 * ((60 : ℚ) - 50) + 4 * ((50 : ℚ) - 50) := by
  refine ⟨?_, ?_⟩ <;> decide

/-! ## Claim C8: cancellation -/

/-- `removeFirstById` fails exactly when no pending order carries the
identity — the caught-`ValueError` side of `deque.remove`. -/
theorem removeFirstById_eq_none_iff (l : List Order) (i : Nat) :
    removeFirstById l i = none ↔ ∀ o ∈ l, o.oid ≠ i := by
  induction l with
  | nil => simp [removeFirstById]
  | cons o rest ih =>
    unfold removeFirstById
    by_cases h : o.oid = i
    · simp [h]
    · rw [if_neg h]
      cases hr : removeFirstById rest i with
      | none =>
        simp only [List.mem_cons]
        constructor
        · intro _ o' ho'
          rcases ho' with rfl | ho'
          · exact h
          · exact (ih.mp hr) o' ho'
        · intro _
          trivial
      | some pr =>
        simp only [List.mem_cons]
        constructor
        · intro hc
          cases hc
        · intro hall
          have hn := ih.mpr (fun o' ho' => hall o' (Or.inr ho'))
          rw [hr] at hn
          cases hn
  -- the `some pr` branches above reduce the match on `removeFirstById rest i`

/-- Claim C8: `cancel` on an identity not present in the pending queue
returns `false` and leaves the whole broker state unchanged; on a pending
order it removes it from the queue, marks it Canceled, enqueues a
notification, returns `true`, and touches neither cash nor any position;
and when the queue held the order once, a second `cancel` returns
`false`. -/
theorem cancel_semantics (s : BrokerBack) (i : Nat) :
    ((∀ o ∈ s.pending, o.oid ≠ i) → s.cancel i = (s, false)) ∧
    (∀ o rest, removeFirstById s.pending i = some (o, rest) →
      s.cancel i = ({ s with pending := rest, notifs := s.notifs ++ [{ o with status := Status.Canceled }] }, true) ∧
      (s.cancel i).1.cash = s.cash ∧ (s.cancel i).1.positions = s.positions) ∧
    (∀ o rest, removeFirstById s.pending i = some (o, rest) →
      (∀ o' ∈ rest, o'.oid ≠ i) →
      (s.cancel i).2 = true ∧ (s.cancel i).1.cancel i = ((s.cancel i).1, false)) := by
  refine ⟨?_, ?_, ?_⟩
  · intro h
    have hn := (removeFirstById_eq_none_iff s.pending i).mpr h
    unfold BrokerBack.cancel
    rw [hn]
  · intro o rest hr
    unfold BrokerBack.cancel
    rw [hr]
    exact ⟨rfl, rfl, rfl⟩
  · intro o rest hr hrest
    have hc : s.cancel i = ({ s with pending := rest, notifs := s.notifs ++ [{ o with status := Status.Canceled }] }, true) := by
      unfold BrokerBack.cancel
      rw [hr]
      rfl
    have hn := (removeFirstById_eq_none_iff rest i).mpr hrest
    rw [hc]
    refine ⟨rfl, ?_⟩
    unfold BrokerBack.cancel
    simp only []
    rw [hn]

/-- A canceled-once order (witness input for C8). -/
def ordCancelW : Order :=
  ⟨41, true, 0, ExecType.Limit, 0, 90, none, false, Status.Accepted, 2, 0, ⟨0, 0⟩⟩

/-- A broker whose pending queue holds exactly that order (witness input). -/
def brokerCancelW : BrokerBack :=
  ⟨5000, 5000, [ordCancelW], [ordCancelW], [(0, ⟨3, 10⟩)], [], ⟨0, none, 1⟩, []⟩

/-- A concrete instance of `cancel_semantics`: cancelling the only pending
order succeeds, removes and marks it, and a second cancel returns false. -/
theorem cancel_semantics_witness :
    removeFirstById brokerCancelW.pending 41 = some (ordCancelW, []) ∧
    brokerCancelW.cancel 41 = ({ brokerCancelW with pending := [], notifs := brokerCancelW.notifs ++ [{ ordCancelW with status := Status.Canceled }] }, true) ∧
    ((brokerCancelW.cancel 41).2 = true ∧
      (brokerCancelW.cancel 41).1.cancel 41 = ((brokerCancelW.cancel 41).1, false)) :=
  ⟨by decide,
    ((cancel_semantics brokerCancelW 41).2.1 ordCancelW [] (by decide)).1,
    (cancel_semantics brokerCancelW 41).2.2 ordCancelW [] (by decide) (by decide)⟩

/-! ## Claim C9: `getvalue()` with no argument -/

/-- With a duplicate-free key list, each stored entry is what lookup finds
for its own key. -/
theorem lookupPos_self (l : List (Nat × Position))
    (h : (l.map Prod.fst).Nodup) :
    ∀ dp ∈ l, lookupPos l dp.1 = some dp.2 := by
  induction l with
  | nil => simp
  | cons kv rest ih =>
    simp only [List.map_cons, List.nodup_cons] at h
    intro dp hdp
    rw [List.mem_cons] at hdp
    rcases hdp with he | hdp
    · subst he
      unfold lookupPos
      rw [if_pos rfl]
    · unfold lookupPos
      have hk : kv.1 ≠ dp.1 := by
        intro he
        exact h.1 (he ▸ List.mem_map_of_mem Prod.fst hdp)
      rw [if_neg hk]
      exact ih h.2 dp hdp

/-- One `getvalue` accumulation step on an already-present key adds the
entry's value and leaves the broker unchanged. -/
theorem getvalueStep_present (feed : Nat → Bar) (a : ℚ) (s : BrokerBack)
    (d : Nat) (p : Position) (h : lookupPos s.positions d = some p) :
    getvalueStep feed (a, s) d =
      (a + (s.getcommissioninfo d).getvalue p (feed d).pclose, s) := by
  unfold getvalueStep BrokerBack.getposdd
  simp only []
  rw [h]

/-- Folding the `getvalue` loop over the keys of entries that are all
present accumulates exactly the sum of the entries' values. -/
theorem getvalue_fold_entries (feed : Nat → Bar) (s : BrokerBack) :
    ∀ (l : List (Nat × Position)) (a : ℚ),
    (∀ dp ∈ l, lookupPos s.positions dp.1 = some dp.2) →
    (l.map Prod.fst).foldl (getvalueStep feed) (a, s) =
      (a + (l.map
        (fun dp => (s.getcommissioninfo dp.1).getvalue dp.2 (feed dp.1).pclose)).sum, s) := by
  intro l
  induction l with
  | nil => intro a _; simp
  | cons dp rest ih =>
    intro a hall
    have h1 := hall dp (List.mem_cons_self dp rest)
    simp only [List.map_cons, List.foldl_cons, List.sum_cons]
    rw [getvalueStep_present feed a s dp.1 dp.2 h1]
    rw [ih (a + (s.getcommissioninfo dp.1).getvalue dp.2 (feed dp.1).pclose)
      (fun dq hq => hall dq (List.mem_cons_of_mem dp hq))]
    rw [add_assoc]

/-- Claim C9: `getvalue()` with no argument returns current cash plus the
sum over all instruments in the position map of
`positionValue(position, currentClose)`; and a zero-size position
contributes zero to that sum (both for cash and margined schemes). -/
theorem getvalue_is_cash_plus_position_values (s : BrokerBack) (feed : Nat → Bar)
    (h : (s.positions.map Prod.fst).Nodup) :
    (s.getvalue feed none).1 =
      s.cash + (s.positions.map
        (fun dp => (s.getcommissioninfo dp.1).getvalue dp.2 (feed dp.1).pclose)).sum ∧
    (∀ ci : CommissionInfo, ∀ pr c : ℚ, ci.getvalue ⟨0, pr⟩ c = 0) := by
  constructor
  · unfold BrokerBack.getvalue
    simp only []
    rw [getvalue_fold_entries feed s s.positions 0 (lookupPos_self s.positions h)]
    rw [zero_add]
  · intro ci pr c
    unfold CommissionInfo.getvalue
    cases ci.margin <;> simp

/-- A broker with two open positions and one per-instrument commission
override (witness input for C9). -/
def brokerValW : BrokerBack :=
  ⟨2000, 2000, [], [], [(0, ⟨3, 10⟩), (1, ⟨-2, 20⟩)], [(1, ⟨0, some 50, 1⟩)], ⟨0, none, 2⟩, []⟩

/-- The bar feed for the witness: instrument 0 closes at 12, instrument 1
at 25. -/
def feedValW : Nat → Bar :=
  fun d => if d = 0 then ⟨11, 13, 10, 12, 11, ⟨1, 0⟩, ⟨0, 0⟩⟩
    else ⟨24, 26, 23, 25, 24, ⟨1, 0⟩, ⟨0, 0⟩⟩

/-- A concrete instance of `getvalue_is_cash_plus_position_values`. -/
theorem getvalue_is_cash_plus_position_values_witness :
    (brokerValW.positions.map Prod.fst).Nodup ∧
    ((brokerValW.getvalue feedValW none).1 =
      brokerValW.cash + (brokerValW.positions.map
        (fun dp => (brokerValW.getcommissioninfo dp.1).getvalue dp.2
          (feedValW dp.1).pclose)).sum ∧
    (∀ ci : CommissionInfo, ∀ pr c : ℚ, ci.getvalue ⟨0, pr⟩ c = 0)) :=
  ⟨by decide, getvalue_is_cash_plus_position_values brokerValW feedValW (by decide)⟩

/-! ## Claim C10: the `defaultdict` side effect of the read accessors -/

/-- A zero-size entry contributes nothing to the mark-to-market sweep. -/
theorem cashadjust_zero_size (ci : CommissionInfo) (p q : ℚ) :
    ci.cashadjust 0 p q = 0 := by
  unfold CommissionInfo.cashadjust
  cases ci.margin <;> simp

/-- Claim C10: `getposition` on an instrument the broker never traded
returns the default empty position but also inserts it into the position
map (the accessor mutates broker state); `getvalue` with an explicit list
containing such an instrument performs the same insertion; and the per-bar
mark-to-market sweep thereafter iterates over the inserted zero-size entry
— its contribution being zero. -/
theorem getposition_inserts_default (s : BrokerBack) (feed : Nat → Bar) (d : Nat)
    (h : lookupPos s.positions d = none) :
    (s.getposition d).1 = ⟨0, 0⟩ ∧
    (s.getposition d).2 = { s with positions := s.positions ++ [(d, ⟨0, 0⟩)] } ∧
    (s.getvalue feed (some [d])).2 =
      { s with positions := s.positions ++ [(d, ⟨0, 0⟩)] } ∧
    ((s.getposition d).2.sweep feed).cash = (s.sweep feed).cash := by
  have hdd : s.getposdd d = (⟨0, 0⟩, { s with positions := s.positions ++ [(d, ⟨0, 0⟩)] }) := by
    unfold BrokerBack.getposdd
    rw [h]
  refine ⟨?_, ?_, ?_, ?_⟩
  · unfold BrokerBack.getposition
    rw [hdd]
  · unfold BrokerBack.getposition
    rw [hdd]
  · unfold BrokerBack.getvalue
    simp only [List.foldl_cons, List.foldl_nil]
    unfold getvalueStep
    simp only []
    rw [hdd]
  · unfold BrokerBack.getposition
    rw [hdd]
    unfold BrokerBack.sweep
    simp only [List.foldl_append, List.foldl_cons, List.foldl_nil]
    rw [cashadjust_zero_size]
    rw [add_zero]
    rfl

/-- A broker that has never traded instrument 5 (witness input for C10). -/
def brokerPosW : BrokerBack :=
  ⟨3000, 3000, [], [], [(0, ⟨4, 15⟩)], [], ⟨0, some 10, 1⟩, []⟩

/-- A concrete instance of `getposition_inserts_default` at instrument 5. -/
theorem getposition_inserts_default_witness :
    lookupPos brokerPosW.positions 5 = none ∧
    ((brokerPosW.getposition 5).1 = ⟨0, 0⟩ ∧
      (brokerPosW.getposition 5).2 =
        { brokerPosW with positions := brokerPosW.positions ++ [(5, ⟨0, 0⟩)] } ∧
      (brokerPosW.getvalue feedValW (some [5])).2 =
        { brokerPosW with positions := brokerPosW.positions ++ [(5, ⟨0, 0⟩)] } ∧
      ((brokerPosW.getposition 5).2.sweep feedValW).cash =
        (brokerPosW.sweep feedValW).cash) :=
  ⟨by decide, getposition_inserts_default brokerPosW feedValW 5 (by decide)⟩

/-! ## Claim C7: the queue pass -/

/-- `processOrder` never reads or writes the pending queue: running it with
any queue contents yields the same cash/positions/notifications and the
same resulting order. -/
theorem processOrder_pending (s : BrokerBack) (feed : Nat → Bar) (o : Order)
    (p : List Order) :
    BrokerBack.processOrder { s with pending := p } feed o =
      ({ (BrokerBack.processOrder s feed o).1 with pending := p },
        (BrokerBack.processOrder s feed o).2) := by
  unfold BrokerBack.processOrder BrokerBack.execOrder BrokerBack.getposdd
  dsimp only
  by_cases he : (o.expire (feed o.data).dt0).2 = true
  · rw [if_pos he, if_pos he]
  · rw [if_neg he, if_neg he]
    cases hc : (checkexec (o.expire (feed o.data).dt0).1 (feed o.data)).2 with
    | none => rfl
    | some dp =>
      cases hl : lookupPos s.positions
          (checkexec (o.expire (feed o.data).dt0).1 (feed o.data)).1.data with
      | none => rfl
      | some q => rfl

/-- Corollary: `processOrder` leaves the pending queue as it found it. -/
theorem processOrder_pending_self (s : BrokerBack) (feed : Nat → Bar) (o : Order) :
    (BrokerBack.processOrder s feed o).1.pending = s.pending := by
  have h := processOrder_pending s feed o s.pending
  have he : ({ s with pending := s.pending } : BrokerBack) = s := rfl
  rw [he] at h
  rw [h]

/-- The deque loop of the source (`for i in range(len(pending)):
popleft …; append`) computes the same state as the spec's single pass over
the snapshot list: survivors accumulate behind `extra`, and orders appended
during the pass are never themselves evaluated. -/
theorem queueLoop_eq_runPass (feed : Nat → Bar) :
    ∀ (q extra : List Order) (s : BrokerBack),
    s.pending = q ++ extra →
    BrokerBack.queueLoop feed q.length s =
      BrokerBack.runPass feed { s with pending := extra } q := by
  intro q
  induction q with
  | nil =>
    intro extra s h
    rw [List.nil_append] at h
    simp only [List.length_nil]
    unfold BrokerBack.queueLoop BrokerBack.runPass
    rw [← h]
  | cons o rest ih =>
    intro extra s h
    rw [List.cons_append] at h
    simp only [List.length_cons]
    unfold BrokerBack.queueLoop BrokerBack.runPass
    rw [h]
    dsimp only
    rw [processOrder_pending s feed o (rest ++ extra),
      processOrder_pending s feed o extra]
    dsimp only
    by_cases ha : (BrokerBack.processOrder s feed o).2.alive = true
    · rw [if_pos ha, if_pos ha]
      rw [ih (extra ++ [(BrokerBack.processOrder s feed o).2])
        ({ (BrokerBack.processOrder s feed o).1 with
            pending := rest ++ extra ++ [(BrokerBack.processOrder s feed o).2] })
        (by dsimp only; rw [List.append_assoc])]
    · rw [if_neg ha, if_neg ha]
      rw [ih extra
        ({ (BrokerBack.processOrder s feed o).1 with pending := rest ++ extra })
        (by dsimp only)]

/-- Every order the pass re-queues is still alive when the pass ends. -/
theorem runPass_alive (feed : Nat → Bar) :
    ∀ (q : List Order) (s : BrokerBack),
    (∀ o ∈ s.pending, o.alive = true) →
    ∀ o ∈ (BrokerBack.runPass feed s q).pending, o.alive = true := by
  intro q
  induction q with
  | nil =>
    intro s h
    unfold BrokerBack.runPass
    exact h
  | cons o rest ih =>
    intro s h
    unfold BrokerBack.runPass
    dsimp only
    by_cases ha : (BrokerBack.processOrder s feed o).2.alive = true
    · rw [if_pos ha]
      apply ih
      intro o' ho'
      dsimp only at ho'
      rw [processOrder_pending_self s feed o] at ho'
      rcases List.mem_append.mp ho' with hi | hi
      · exact h o' hi
      · rw [List.mem_singleton.mp hi]
        exact ha
    · rw [if_neg ha]
      apply ih
      intro o' ho'
      rw [processOrder_pending_self s feed o] at ho'
      exact h o' ho'

/-- A fired expiry sets the Expired status. -/
theorem expire_fired_status (o : Order) (now : PyDateTime)
    (h : (o.expire now).2 = true) :
    (o.expire now).1.status = Status.Expired := by
  unfold Order.expire at h ⊢
  cases hv : o.valid with
  | none =>
    rw [hv] at h
    exact Bool.noConfusion h
  | some v =>
    rw [hv] at h
    dsimp only at h ⊢
    split at h
    next hcond => rw [if_pos hcond]
    next hcond => exact Bool.noConfusion h

/-- Claim C7: the per-bar step evaluates exactly the orders pending at the
start of the queue pass, each exactly once — `next` equals the sweep
followed by the one-pass-over-the-snapshot `runPass`, so orders re-appended
at the tail are not evaluated again within the bar; every order left in the
queue afterwards is still alive (an executed or expired order is never
re-queued); and an order whose expiry fires is only notified — the
iteration body returns immediately with the expired (hence not-alive,
not-requeued) order before any fill rule runs. -/
theorem queue_pass_snapshot (s : BrokerBack) (feed : Nat → Bar) :
    s.next feed =
      BrokerBack.runPass feed { s.sweep feed with pending := [] } s.pending ∧
    (∀ o ∈ (s.next feed).pending, o.alive = true) ∧
    (∀ (s' : BrokerBack) (o : Order), (o.expire (feed o.data).dt0).2 = true →
      s'.processOrder feed o =
        ({ s' with notifs := s'.notifs ++ [(o.expire (feed o.data).dt0).1] },
          (o.expire (feed o.data).dt0).1) ∧
      (o.expire (feed o.data).dt0).1.alive = false) := by
  have hmain : s.next feed =
      BrokerBack.runPass feed { s.sweep feed with pending := [] } s.pending := by
    unfold BrokerBack.next
    exact queueLoop_eq_runPass feed s.pending [] (s.sweep feed)
      (List.append_nil s.pending).symm
  refine ⟨hmain, ?_, ?_⟩
  · rw [hmain]
    apply runPass_alive
    intro o ho
    cases ho
  · intro s' o he
    constructor
    · unfold BrokerBack.processOrder
      rw [if_pos he]
    · unfold Order.alive
      rw [expire_fired_status o (feed o.data).dt0 he]
      rfl

/-- An order that expires on the witness bar: valid until day 1, evaluated
on day 5 (witness input for C7). -/
def ordExpW : Order :=
  ⟨51, true, 0, ExecType.Limit, 0, 90, some ⟨1, 0⟩, false, Status.Accepted, 1, 0, ⟨0, 0⟩⟩

/-- A broker with one pending limit order and one open position (witness
input for C7). -/
def brokerPassW : BrokerBack :=
  ⟨1000, 1000, [ordCancelW], [ordCancelW], [(0, ⟨3, 10⟩)], [], ⟨0, none, 1⟩, []⟩

/-- The witness feed: every instrument shows the same day-5 bar. -/
def feedPassW : Nat → Bar :=
  fun _ => ⟨100, 102, 99, 101, 98, ⟨5, 0⟩, ⟨4, 0⟩⟩

/-- A concrete instance of `queue_pass_snapshot`: the loop/pass equivalence
at a one-order queue, and the expiry short-circuit on `ordExpW`. -/
theorem queue_pass_snapshot_witness :
    brokerPassW.next feedPassW =
      BrokerBack.runPass feedPassW
        { brokerPassW.sweep feedPassW with pending := [] } brokerPassW.pending ∧
    (ordExpW.expire (feedPassW ordExpW.data).dt0).2 = true ∧
    brokerPassW.processOrder feedPassW ordExpW =
      ({ brokerPassW with notifs := brokerPassW.notifs ++
          [(ordExpW.expire (feedPassW ordExpW.data).dt0).1] },
        (ordExpW.expire (feedPassW ordExpW.data).dt0).1) :=
  ⟨(queue_pass_snapshot brokerPassW feedPassW).1, by decide,
    ((queue_pass_snapshot brokerPassW feedPassW).2.2 brokerPassW ordExpW (by decide)).1⟩

end Backtrader
